import Mathlib

/-!
Verification development for the quick-lint-js configuration loader,
`Result` container, and lex-table generator.

The configuration loader implementation itself is not part of the sources
at hand (only its test suite is), so the loader, resolver, canonicalizer,
cache and watcher are modelled from the specification; the `Result`
container and the lex-table generator are embedded from their C++ sources.
-/

namespace quick_lint_js

/-! ### Paths, filesystem nodes, and the fake filesystem -/

/-- A canonical path, as a list of components from the filesystem root. -/
abbrev CPath := List String

/-- File contents as a list of bytes. Content equality models the
byte-hash comparison used by the loader. -/
abbrev Content := List Nat

/-- Modelled from the spec: a filesystem node. A regular file carries a
readability flag (permission bits) and its content; a symlink carries its
target path (taken to be absolute). -/
inductive Node where
  | file (readable : Bool) (content : Content)
  | dir
  | symlink (target : List String)
  | absent
deriving DecidableEq

/-- Modelled from the spec: a filesystem state maps each canonical path
to the node found there. -/
abbrev Fs := CPath → Node

/-- Symlink-chasing fuel, standing in for the OS symlink-loop limit. -/
def statFuel : Nat := 40

/-- Modelled from the spec: `stat`, following symlink chains (up to
`statFuel` links; a longer chain reports the path as absent, standing in
for ELOOP). -/
def statKind (fs : Fs) : Nat → CPath → Node
  | 0, _ => .absent
  | fuel + 1, p =>
    match fs p with
    | .symlink t => statKind fs fuel t
    | n => n

/-! ### Path canonicalizer (spec section 4.1) -/

/-- Modelled from the spec: the path canonicalizer, which is missing from
the sources at hand. Components are processed left to right; `.` is
dropped, `..` removes the last already-canonical component, and a symlink
restarts resolution at its (absolute) target. Fuel bounds the number of
symlink traversals; components of paths that do not exist are kept
literally, as the spec requires. -/
def canonComp (fs : Fs) (fuel : Nat) (acc : List String) (path : List String) :
    Option (List String) :=
  match path with
  | [] => some acc
  | c :: rest =>
    if c = "." then canonComp fs fuel acc rest
    else if c = ".." then canonComp fs fuel acc.dropLast rest
    else
      match fs (acc ++ [c]) with
      | .symlink target =>
        match fuel with
        | 0 => none
        | fuel' + 1 => canonComp fs fuel' [] (target ++ rest)
      | _ => canonComp fs fuel (acc ++ [c]) rest
termination_by (fuel, path.length)
decreasing_by
  · exact Prod.Lex.right fuel (by simp)
  · exact Prod.Lex.right fuel (by simp)
  · exact Prod.Lex.left _ _ (Nat.lt_succ_self fuel')
  · exact Prod.Lex.right fuel (by simp)

/-! ### Resolver (spec section 4.5) -/

/-- The well-known config file name. -/
def configFileName : String := "quick-lint-js.config"

/-- Platform selector, deciding which error code a non-regular config
candidate produces. -/
inductive Platform where
  | unix
  | windows
deriving DecidableEq

/-- errno EACCES. -/
def EACCES : Nat := 13
/-- errno EISDIR. -/
def EISDIR : Nat := 21
/-- errno ENOENT. -/
def ENOENT : Nat := 2
/-- errno EMFILE. -/
def EMFILE : Nat := 24
/-- errno ENOSPC. -/
def ENOSPC : Nat := 28
/-- GetLastError code ERROR_ACCESS_DENIED. -/
def ERROR_ACCESS_DENIED : Nat := 5

/-- Modelled from the spec: the error code returned when a config
candidate exists but is not a regular file. -/
def nonRegularCode : Platform → Nat
  | .unix => EISDIR
  | .windows => ERROR_ACCESS_DENIED

/-- An I/O error: the canonical path it concerns and a platform code. -/
structure IOError where
  path : CPath
  code : Nat
deriving DecidableEq

/-- Modelled from the spec: the outcome of resolving one watch against a
filesystem state. An `ok` resolution remembers the resolved canonical
config path and the config bytes (standing in for the content hash). -/
inductive Resolution where
  | ok (configPath : CPath) (content : Content)
  | noConfig
  | err (e : IOError)
deriving DecidableEq

/-- All ancestor directories of `d` with `n` components still to strip:
`d` itself first, then its parents, ending at the root. -/
def ancestorsAux : Nat → CPath → List CPath
  | 0, d => [d]
  | n + 1, d => d :: ancestorsAux n d.dropLast

/-- All ancestor directories of `d`, innermost first, root last. -/
def ancestors (d : CPath) : List CPath := ancestorsAux d.length d

/-- Modelled from the spec: inspect one directory of the ancestor walk.
`none` means the walk continues (no candidate there); `some r` stops the
walk with resolution `r`. A readable regular file is the found config; an
unreadable one is a permission error; a directory is a non-regular-file
error. -/
def searchStep (fs : Fs) (plat : Platform) (d : CPath) : Option Resolution :=
  let candidate := d ++ [configFileName]
  match statKind fs statFuel candidate with
  | .file true c => some (.ok candidate c)
  | .file false _ => some (.err ⟨candidate, EACCES⟩)
  | .dir => some (.err ⟨candidate, nonRegularCode plat⟩)
  | .symlink _ => none
  | .absent => none

/-- Modelled from the spec: walk a list of directories innermost-first,
returning the resolution together with every directory inspected (the
directories the watcher must arm). -/
def searchDirs (fs : Fs) (plat : Platform) : List CPath → Resolution × List CPath
  | [] => (.noConfig, [])
  | d :: rest =>
    match searchStep fs plat d with
    | some r => (r, [d])
    | none =>
      let p := searchDirs fs plat rest
      (p.1, d :: p.2)

/-! ### Loader front end (spec sections 4.6 and 6) -/

/-- The input record identifying one file to lint (spec section 6). All
paths are taken already canonical in this model. -/
structure FileToLint where
  path : CPath
  configFile : Option CPath
  pathForConfigSearch : Option CPath
  isStdin : Bool
deriving DecidableEq

/-- Modelled from the spec: read an explicitly-given config file (direct
mode), bypassing the ancestor search. -/
def readConfigDirect (fs : Fs) (plat : Platform) (cfg : CPath) : Resolution :=
  match statKind fs statFuel cfg with
  | .file true c => .ok cfg c
  | .file false _ => .err ⟨cfg, EACCES⟩
  | .dir => .err ⟨cfg, nonRegularCode plat⟩
  | .symlink _ => .err ⟨cfg, ENOENT⟩
  | .absent => .err ⟨cfg, ENOENT⟩

/-- Modelled from the spec: resolve a `FileToLint`, returning the
resolution and the directories reported to the watcher. An explicit
`configFile` means direct mode; stdin with no search path means no config
and no directory is walked; otherwise the ancestor search runs from the
parent of `pathForConfigSearch` (defaulting to the file path). -/
def resolveFileT (fs : Fs) (plat : Platform) (f : FileToLint) :
    Resolution × List CPath :=
  match f.configFile with
  | some cfg => (readConfigDirect fs plat cfg, ancestors cfg.dropLast)
  | none =>
    if f.isStdin ∧ f.pathForConfigSearch = none then (.noConfig, [])
    else searchDirs fs plat (ancestors ((f.pathForConfigSearch.getD f.path).dropLast))

/-- The resolution of a `FileToLint` (spec sections 4.5 to 4.7). -/
def resolveFile (fs : Fs) (plat : Platform) (f : FileToLint) : Resolution :=
  (resolveFileT fs plat f).1

/-! ### Watches, refresh, and configuration changes (spec section 4.7) -/

/-- A registered watch: the input it re-resolves from, the client token,
and the remembered previous resolution. -/
structure Watch where
  input : FileToLint
  token : Nat
  lastResolution : Resolution
deriving DecidableEq

/-- A change record emitted by `refresh` (spec section 3): `configFile`
is `none` iff no config now applies, `error` is `some` iff resolution
failed. -/
structure ConfigurationChange where
  watchedPath : CPath
  token : Nat
  configFile : Option (CPath × Content)
  error : Option IOError
deriving DecidableEq

/-- The change record describing resolution `r` for watch `w`. -/
def changeOfResolution (w : Watch) (r : Resolution) : ConfigurationChange :=
  match r with
  | .ok p c => ⟨w.input.path, w.token, some (p, c), none⟩
  | .noConfig => ⟨w.input.path, w.token, none, none⟩
  | .err e => ⟨w.input.path, w.token, none, some e⟩

/-- Modelled from the spec: refresh one watch. Re-resolve from the
watch's input; emit a change iff the new resolution differs from the
remembered one, and remember the new resolution. -/
def refreshWatch (fs : Fs) (plat : Platform) (w : Watch) :
    Option ConfigurationChange × Watch :=
  let r := resolveFile fs plat w.input
  if r = w.lastResolution then (none, w)
  else (some (changeOfResolution w r), { w with lastResolution := r })

/-- Modelled from the spec: `refresh()`. Every registered watch is
re-resolved; the emitted change records and the updated watches are
returned. -/
def refresh (fs : Fs) (plat : Platform) (ws : List Watch) :
    List ConfigurationChange × List Watch :=
  (ws.filterMap (fun w => (refreshWatch fs plat w).1),
   ws.map (fun w => (refreshWatch fs plat w).2))

/-! ### Filesystem mutations (for the batching guarantees) -/

/-- Modelled from the spec: a filesystem mutation occurring between two
`refresh()` calls. -/
inductive Mutation where
  | write (p : CPath) (c : Content)
  | chmod (p : CPath) (readable : Bool) (c : Content)
  | remove (p : CPath)
  | move (src dst : CPath)
  | mkdir (p : CPath)

/-- Apply one mutation to a filesystem state. -/
def applyMut (fs : Fs) : Mutation → Fs
  | .write p c => fun q => if q = p then .file true c else fs q
  | .chmod p r c => fun q => if q = p then .file r c else fs q
  | .remove p => fun q => if q = p then .absent else fs q
  | .move src dst => fun q =>
      if q = dst then fs src else if q = src then .absent else fs q
  | .mkdir p => fun q => if q = p then .dir else fs q

/-- Apply a sequence of mutations, oldest first. -/
def applyMuts (fs : Fs) (ms : List Mutation) : Fs := ms.foldl applyMut fs

/-! ### Config cache and loader state (spec sections 4.4 and 4.6) -/

/-- A cache entry: `id` models the entry's address (pointer identity),
`path` the canonical config path, `content` the parsed bytes. -/
structure CacheEntry where
  id : Nat
  path : CPath
  content : Content
deriving DecidableEq

/-- A watcher-level I/O error surfaced out of band; an empty `path`
marks an instance-initialization failure. -/
structure WatchIOError where
  path : CPath
  code : Nat
deriving DecidableEq

/-- The loader's mutable state: the config cache, the next fresh entry
identity, and the accumulated out-of-band watch errors. -/
structure LoaderState where
  cache : List CacheEntry
  nextId : Nat
  watchErrors : List WatchIOError
deriving DecidableEq

/-- Find the live cache entry for canonical path `p`, if any. -/
def findEntry (cache : List CacheEntry) (p : CPath) : Option CacheEntry :=
  cache.find? (fun e => decide (e.path = p))

/-- Modelled from the spec: the cache's `get_or_load`. A hit returns the
existing entry unchanged; a miss inserts a fresh entry with a new
identity. -/
def getOrLoad (s : LoaderState) (p : CPath) (c : Content) :
    CacheEntry × LoaderState :=
  match findEntry s.cache p with
  | some e => (e, s)
  | none =>
    (⟨s.nextId, p, c⟩,
     { s with cache := s.cache ++ [⟨s.nextId, p, c⟩], nextId := s.nextId + 1 })

/-- The outcome of `load_for_file` / `watch_and_load_*`: success with an
optional cache entry, or an I/O error. -/
inductive LoadResult where
  | ok (entry : Option CacheEntry)
  | fail (e : IOError)
deriving DecidableEq

/-- Turn a resolution into a load result, consulting the cache. -/
def loadFromResolution (s : LoaderState) (r : Resolution) :
    LoadResult × LoaderState :=
  match r with
  | .ok p c =>
    let es := getOrLoad s p c
    (.ok (some es.1), es.2)
  | .noConfig => (.ok none, s)
  | .err e => (.fail e, s)

/-! ### Platform watcher failures (spec sections 4.3 and 5) -/

/-- Modelled from the spec: the behavior of the platform watch primitive.
`initError` is the outcome of creating the watcher instance (for example
`inotify_init` failing with EMFILE); `addWatchError d` is the outcome of
arming directory `d` (for example `inotify_add_watch` failing with
ENOSPC). -/
structure WatcherBehavior where
  initError : Option Nat
  addWatchError : CPath → Option Nat

/-- A watcher that never fails. -/
def perfectWatcher : WatcherBehavior := ⟨none, fun _ => none⟩

/-- The out-of-band errors produced by creating the watcher instance;
instance-level failures carry an empty path. -/
def initErrors (wb : WatcherBehavior) : List WatchIOError :=
  match wb.initError with
  | some c => [⟨[], c⟩]
  | none => []

/-- The out-of-band errors produced by arming `dirs`, each carrying the
offending canonical directory path. -/
def armDirs (wb : WatcherBehavior) (dirs : List CPath) : List WatchIOError :=
  dirs.filterMap (fun d => (wb.addWatchError d).map (fun c => ⟨d, c⟩))

/-- The loader's initial state: empty cache, and any watcher
instance-creation error already queued out of band. -/
def loaderInit (wb : WatcherBehavior) : LoaderState := ⟨[], 0, initErrors wb⟩

/-- Modelled from the spec: `watch_and_load_for_file` /
`watch_and_load_config_file`. Resolves the input, consults the cache,
arms every directory reported by the resolver (queueing watcher failures
out of band, never failing the load), and registers a watch remembering
the resolution. -/
def watchAndLoad (fs : Fs) (plat : Platform) (wb : WatcherBehavior)
    (s : LoaderState) (f : FileToLint) (tok : Nat) :
    LoadResult × LoaderState × Watch :=
  let rt := resolveFileT fs plat f
  let ls := loadFromResolution s rt.1
  (ls.1,
   { ls.2 with watchErrors := ls.2.watchErrors ++ armDirs wb rt.2 },
   ⟨f, tok, rt.1⟩)

/-- Modelled from the spec: `take_watch_errors` drains the accumulated
out-of-band watcher errors. -/
def takeWatchErrors (s : LoaderState) : List WatchIOError × LoaderState :=
  (s.watchErrors, { s with watchErrors := [] })

/-! ### The spec's change criterion (spec section 4.6, refresh bullet) -/

/-- The resolved canonical config path of a resolution (the error's path
for a failed resolution, nothing when no config applies). -/
def resolvedPathOf : Resolution → Option CPath
  | .ok p _ => some p
  | .noConfig => none
  | .err e => some e.path

/-- The config content of a resolution, when it succeeded. -/
def contentOf : Resolution → Option Content
  | .ok _ c => some c
  | .noConfig => none
  | .err _ => none

/-- The error code of a resolution, when it failed. -/
def errorCodeOf : Resolution → Option Nat
  | .ok _ _ => none
  | .noConfig => none
  | .err e => some e.code

/-- The spec's criterion for emitting a `ConfigurationChange`: the
resolved canonical config path differs, or the path is the same but the
content (hash) changed, or the error status changed (ok to fail, fail to
ok, or a different error code). -/
def ResolutionDiffers (old new : Resolution) : Prop :=
  resolvedPathOf old ≠ resolvedPathOf new
  ∨ (resolvedPathOf old = resolvedPathOf new ∧ contentOf old ≠ contentOf new)
  ∨ errorCodeOf old ≠ errorCodeOf new

/-! ### The Result container (src/quick-lint-js/container/result.h) -/

/-- The two-slot variant underlying `Result_Base`: slot 0 holds the
value, slot 1 the error. -/
inductive Variant2 (A B : Type) where
  | first (a : A)
  | second (b : B)
deriving DecidableEq

/-- `Result_Error`, the carrier produced by `failed_result`. -/
structure ResultError (E : Type) where
  e : E

/-- `failed_result(e)`: wrap an error for constructing or assigning a
failed result. -/
def failed_result (E : Type) (e : E) : ResultError E := ⟨e⟩

/-- `Result_Base<T, Error>`: a variant of the value type and the error
type (`data_`). The embedding fixes the layout the source produces when
`T` and `Error` are distinct types (the source flags the `T == Error`
case as broken). -/
structure Result (T E : Type) where
  data : Variant2 T E

/-- The value-argument constructor (`in_place_index<0>`). -/
def Result.ofValue (T E : Type) (v : T) : Result T E := ⟨.first v⟩

/-- The `Result_Error` constructor (`in_place_type<Error>`, slot 1 when
`T` and `Error` are distinct). -/
def Result.ofError (T E : Type) (err : ResultError E) : Result T E :=
  ⟨.second err.e⟩

/-- Assignment from `failed_result` (`operator=` emplacing the error
slot). -/
def Result.assignError (T E : Type) (_r : Result T E) (err : ResultError E) :
    Result T E :=
  ⟨.second err.e⟩

/-- `ok()`: whether `data_.index() == 0`. -/
def Result.ok {T E : Type} : Result T E → Bool
  | ⟨.first _⟩ => true
  | ⟨.second _⟩ => false

/-- `value()`: guarded by `QLJS_ASSERT(this->ok())`; returns slot 0. -/
def Result.value {T E : Type} : (r : Result T E) → r.ok = true → T
  | ⟨.first v⟩, _ => v

/-- `error()`: guarded by `QLJS_ASSERT(!this->ok())`; returns the error
slot. -/
def Result.error {T E : Type} : (r : Result T E) → r.ok = false → E
  | ⟨.second e⟩, _ => e

/-! ### Lex-table generator (src/tools/generate-lex-tables.cpp) -/

/-- The fixed symbol list, as byte lists (`!`=33, `%`=37, `&`=38, `+`=43,
`=`=61, `>`=62, `^`=94, `|`=124), in source order. -/
def symbols : List (List Nat) :=
  [[33], [33, 61], [33, 61, 61], [37], [37, 61], [38],
   [38, 38], [38, 38, 61], [38, 61], [43], [43, 43], [43, 61],
   [61], [61, 61], [61, 61, 61], [61, 62], [62], [62, 61],
   [62, 62], [62, 62, 61], [62, 62, 62], [62, 62, 62, 61], [94], [94, 61],
   [124], [124, 61], [124, 124], [124, 124, 61]]

/-- Whether byte `c` occurs in any symbol. -/
def occursInSymbols (c : Nat) : Bool := symbols.any (fun s => s.contains c)

/-- `classify_characters`: walk bytes 0..255; each byte occurring in a
symbol gets the next fresh class number, all others class 0. Returns the
256-entry class table and the maximum class number. -/
def buildClasses : List Nat × Nat :=
  (List.range 256).foldl
    (fun acc c =>
      if occursInSymbols c then (acc.1 ++ [acc.2 + 1], acc.2 + 1)
      else (acc.1 ++ [0], acc.2))
    ([], 0)

/-- The character class of byte `c` (`character_class_table`). -/
def characterClassOf (c : Nat) : Nat := buildClasses.1.getD c 0

/-- `max_character_class`. -/
def maxCharacterClass : Nat := buildClasses.2

/-- `lex_state_kind`. -/
inductive LexStateKind where
  | intermediate
  | nonUniqueTerminal
  | uniqueTerminal
deriving DecidableEq

/-- `lex_state`: the kind and the byte history reaching this state. -/
structure LexState where
  kind : LexStateKind
  history : List Nat
deriving DecidableEq

/-- `is_strict_prefix_of_any_symbol`. -/
def isStrictPrefixOfAnySymbol (s : List Nat) : Bool :=
  symbols.any (fun sym =>
    decide (sym.length ≠ s.length) && List.isPrefixOf s sym)

/-- `add_intermediate_state`: append a state for `h` unless one with
that history already exists. -/
def addIntermediateState (sts : List LexState) (h : List Nat) :
    List LexState :=
  if sts.any (fun st => decide (st.history = h)) then sts
  else sts ++ [⟨.intermediate, h⟩]

/-- Lexicographic order on byte histories (`a.history < b.history`). -/
def lexLt : List Nat → List Nat → Bool
  | [], [] => false
  | [], _ :: _ => true
  | _ :: _, [] => false
  | a :: as, b :: bs => if a < b then true else if b < a then false else lexLt as bs

/-- The sort comparator from `compute_states`: when kinds differ, states
that are not unique terminals come first; otherwise compare histories. -/
def stateLtBool (a b : LexState) : Bool :=
  if a.kind ≠ b.kind then decide (a.kind ≠ .uniqueTerminal)
  else lexLt a.history b.history

/-- Insertion step of the sort over `states.begin()+1 .. states.end()`. -/
def insertState (a : LexState) : List LexState → List LexState
  | [] => [a]
  | b :: bs => if stateLtBool a b then a :: b :: bs else b :: insertState a bs

/-- Insertion sort with the `compute_states` comparator. -/
def sortStates : List LexState → List LexState
  | [] => []
  | a :: as => insertState a (sortStates as)

/-- `compute_states` before the sort: the initial state, one terminal
state per symbol, then the intermediate states for every proper prefix
of length `1 .. size-2` of each symbol (deduplicated). -/
def statesBeforeSort : List LexState :=
  let withTerminals : List LexState :=
    ⟨LexStateKind.intermediate, []⟩ ::
      symbols.map (fun sym =>
        ⟨if isStrictPrefixOfAnySymbol sym then .nonUniqueTerminal
          else .uniqueTerminal, sym⟩)
  symbols.foldl
    (fun sts sym =>
      ((List.range (sym.length - 1)).drop 1).foldl
        (fun sts2 i => addIntermediateState sts2 (sym.take i)) sts)
    withTerminals

/-- `compute_states`: the initial state stays first; the rest is sorted
with the comparator. -/
def states : List LexState :=
  match statesBeforeSort with
  | [] => []
  | s0 :: rest => s0 :: sortStates rest

/-- `unique_terminal_state_count`. -/
def uniqueTerminalStateCount : Nat :=
  (states.filter (fun st => decide (st.kind = .uniqueTerminal))).length

/-- `intermediate_or_non_unique_terminal_state_count`. -/
def inputStateCount : Nat := states.length - uniqueTerminalStateCount

/-- `single_state_transition_table::retract`. -/
def RETRACT : Nat := 4294967295

/-- `single_state_transition_table::table_broken`. -/
def TABLE_BROKEN : Nat := 4294967294

/-- `find_state_index`: the index of the state with the given history
(`table_broken` if none exists, which the source asserts against). -/
def findStateIndex (h : List Nat) : Nat :=
  match states.findIdx? (fun st => decide (st.history = h)) with
  | some i => i
  | none => TABLE_BROKEN

/-- Overwrite one transition cell. -/
def setCell (tbl : List (List Nat)) (row col v : Nat) : List (List Nat) :=
  tbl.set row ((tbl.getD row []).set col v)

/-- The transition table before any symbol is processed: every cell is
`retract`, except cell (initial state, class 0) which is
`table_broken`. -/
def initialTransitionTable : List (List Nat) :=
  setCell
    (List.replicate inputStateCount
      (List.replicate (maxCharacterClass + 1) RETRACT))
    0 0 TABLE_BROKEN

/-- One byte of `compute_transition_table`'s inner loop. The state is
(history so far, current state index, table, assertion flag). The flag
records that the row index was in bounds (`.at`) and that an
already-written cell held the value about to be written
(`QLJS_ASSERT`). -/
def stepSymbolByte (acc : List Nat × Nat × List (List Nat) × Bool)
    (b : Nat) : List Nat × Nat × List (List Nat) × Bool :=
  let hist := acc.1 ++ [b]
  let curState := acc.2.1
  let tbl := acc.2.2.1
  let okFlag := acc.2.2.2
  let newIdx := findStateIndex hist
  let cls := characterClassOf b
  let cur := (tbl.getD curState []).getD cls RETRACT
  (hist, newIdx, setCell tbl curState cls newIdx,
   okFlag && decide (curState < tbl.length)
     && (decide (cur = RETRACT) || decide (cur = newIdx)))

/-- Process one symbol of `compute_transition_table`, starting at the
initial state. -/
def processSymbol (st : List (List Nat) × Bool) (sym : List Nat) :
    List (List Nat) × Bool :=
  (sym.foldl stepSymbolByte ([], 0, st)).2.2

/-- `compute_transition_table`, returning the table and whether every
`QLJS_ASSERT` (and every `.at` bounds check) along the way held. -/
def computeTransitionTable : List (List Nat) × Bool :=
  symbols.foldl processSymbol (initialTransitionTable, true)

/-- Whether all internal assertions of `compute_transition_table`
held. -/
def transitionTableConsistent : Bool := computeTransitionTable.2

/-- Whether `classify_characters` gave distinct classes to distinct
bytes occurring in symbols. -/
def symbolByteClassesDistinct : Bool :=
  let bs := (List.range 256).filter occursInSymbols
  bs.all (fun b => bs.all (fun b2 =>
    (b == b2) || !(characterClassOf b == characterClassOf b2)))

/-! ### Concrete witness inputs -/

/-- Concrete config path for the witnesses. -/
def cfgPathW : CPath := ["proj", "quick-lint-js.config"]

/-- Concrete filesystem for the witnesses: one readable config file. -/
def fsW : Fs := fun q => if q = cfgPathW then .file true [123] else .absent

/-- Concrete watched file for the witnesses. -/
def fileW : FileToLint := ⟨["proj", "hello.js"], none, none, false⟩

/-- Witness mutations: rewrite the config, then rewrite it back to its
original bytes. -/
def msW : List Mutation := [.write cfgPathW [104], .write cfgPathW [123]]

/-- Witness watch list: one watch in sync with `fsW`. -/
def wsW : List Watch := [⟨fileW, 0, resolveFile fsW .unix fileW⟩]

/-- Witness filesystem for the stdin claim: a config in the working
directory `cwd` and one in `proj`. -/
def fsW6 : Fs := fun q =>
  if q = ["cwd", "quick-lint-js.config"] then .file true [1]
  else if q = ["proj", "quick-lint-js.config"] then .file true [2]
  else .absent

/-- Witness filesystem for the non-regular-candidate claim: the config
candidate in `proj` is a directory. -/
def fsW7 : Fs := fun q =>
  if q = ["proj", "quick-lint-js.config"] then .dir else .absent

/-- Witness filesystem for the dot-dot claim: `tmp/dir` and
`tmp/dir/subdir` are real directories with configs at `tmp` and
`tmp/dir/subdir`. -/
def fsW5 : Fs := fun q =>
  if q = ["tmp"] then .dir
  else if q = ["tmp", "dir"] then .dir
  else if q = ["tmp", "dir", "subdir"] then .dir
  else if q = ["tmp", "quick-lint-js.config"] then .file true [10]
  else if q = ["tmp", "dir", "subdir", "quick-lint-js.config"] then .file true [20]
  else .absent

theorem canonComp_nil (fs : Fs) (fuel : Nat) (acc : List String) :
    canonComp fs fuel acc [] = some acc := by
  rw [canonComp]

theorem canonComp_dotdot_after_dir (fs : Fs) (fuel : Nat) (acc : List String)
    (b : String) (rest : List String)
    (hb1 : b ≠ ".") (hb2 : b ≠ "..") (hdir : fs (acc ++ [b]) = .dir) :
    canonComp fs fuel acc (b :: ".." :: rest) = canonComp fs fuel acc rest := by
  rw [canonComp]
  simp only [hb1, hb2, if_false, hdir]
  rw [canonComp]
  simp [List.dropLast_concat]

theorem ioError_ne_iff (a b : IOError) :
    a ≠ b ↔ a.path ≠ b.path ∨ a.code ≠ b.code := by
  cases a
  cases b
  simp only [ne_eq, IOError.mk.injEq]
  tauto

theorem resolutionDiffers_iff_ne (o n : Resolution) :
    ResolutionDiffers o n ↔ o ≠ n := by
  cases o <;> cases n <;>
    simp [ResolutionDiffers, resolvedPathOf, contentOf, errorCodeOf,
      ioError_ne_iff] <;>
    tauto

theorem refreshWatch_input (fs : Fs) (plat : Platform) (w : Watch) :
    ((refreshWatch fs plat w).2).input = w.input := by
  by_cases h : resolveFile fs plat w.input = w.lastResolution <;>
    simp [refreshWatch, h]

theorem refreshWatch_lastResolution (fs : Fs) (plat : Platform) (w : Watch) :
    ((refreshWatch fs plat w).2).lastResolution
      = resolveFile fs plat ((refreshWatch fs plat w).2).input := by
  by_cases h : resolveFile fs plat w.input = w.lastResolution <;>
    simp [refreshWatch, h]

theorem refreshWatch_none_of_sync (fs : Fs) (plat : Platform) (w : Watch)
    (h : resolveFile fs plat w.input = w.lastResolution) :
    (refreshWatch fs plat w).1 = none := by
  simp [refreshWatch, h]

theorem refreshWatch_twice (fs : Fs) (plat : Platform) (w : Watch) :
    (refreshWatch fs plat (refreshWatch fs plat w).2).1 = none :=
  refreshWatch_none_of_sync fs plat _
    (refreshWatch_lastResolution fs plat w).symm

/-- C1: `refresh()` emits a `ConfigurationChange` for a watch exactly
when its re-resolved state differs from its last remembered resolution:
the resolved canonical config path differs, or the path is the same but
the content (hash) changed, or the error status changed. The emitted
record describes the new resolution. -/
theorem refresh_emits_change_iff (fs : Fs) (plat : Platform)
    (ws : List Watch) (w : Watch) :
    (refresh fs plat ws).1 = ws.filterMap (fun w' => (refreshWatch fs plat w').1)
  ∧ ((refreshWatch fs plat w).1.isSome = true ↔
      ResolutionDiffers w.lastResolution (resolveFile fs plat w.input))
  ∧ (∀ ch, (refreshWatch fs plat w).1 = some ch →
      ch = changeOfResolution w (resolveFile fs plat w.input)) := by
  refine ⟨rfl, ?_, ?_⟩
  · rw [resolutionDiffers_iff_ne]
    by_cases h : resolveFile fs plat w.input = w.lastResolution
    · simp [refreshWatch, h]
    · simp only [refreshWatch, if_neg h, Option.isSome_some, true_iff]
      exact fun hh => h hh.symm
  · intro ch hch
    by_cases h : resolveFile fs plat w.input = w.lastResolution
    · simp [refreshWatch, h] at hch
    · simp only [refreshWatch, if_neg h, Option.some.injEq] at hch
      exact hch.symm

/-- C4: `refresh()` is idempotent: refreshing again with no intervening
filesystem change returns no changes, and a watch just created by
`watch_and_load` (whatever its result state) produces no change on the
first refresh either. -/
theorem refresh_idempotent (fs : Fs) (plat : Platform) (ws : List Watch)
    (wb : WatcherBehavior) (s : LoaderState) (f : FileToLint) (tok : Nat) :
    (refresh fs plat (refresh fs plat ws).2).1 = []
  ∧ (refresh fs plat [(watchAndLoad fs plat wb s f tok).2.2]).1 = [] := by
  constructor
  · show List.filterMap _ (List.map _ ws) = []
    rw [List.filterMap_map, List.filterMap_eq_nil_iff]
    intro w _
    exact refreshWatch_twice fs plat w
  · show List.filterMap _ [_] = []
    rw [List.filterMap_eq_nil_iff]
    intro w hw
    rw [List.mem_singleton] at hw
    subst hw
    exact refreshWatch_none_of_sync fs plat _ rfl

/-- C3: a sequence of mutations between two refreshes whose net effect
restores the original filesystem state (for example rewriting the config
to its original bytes, or moving it away and back) makes the next
`refresh()` return no changes. -/
theorem refresh_after_net_restore (fs : Fs) (plat : Platform)
    (ms : List Mutation) (ws : List Watch)
    (hsync : ∀ w ∈ ws, w.lastResolution = resolveFile fs plat w.input)
    (hnet : applyMuts fs ms = fs) :
    (refresh (applyMuts fs ms) plat ws).1 = [] := by
  rw [hnet]
  show List.filterMap _ ws = []
  rw [List.filterMap_eq_nil_iff]
  intro w hw
  exact refreshWatch_none_of_sync fs plat w (hsync w hw).symm

theorem refresh_after_net_restore_witness :
    (∀ w ∈ wsW, w.lastResolution = resolveFile fsW .unix w.input)
  ∧ applyMuts fsW msW = fsW
  ∧ (refresh (applyMuts fsW msW) .unix wsW).1 = [] := by
  have h1 : ∀ w ∈ wsW, w.lastResolution = resolveFile fsW .unix w.input := by
    intro w hw
    rw [wsW, List.mem_singleton] at hw
    subst hw
    rfl
  have h2 : applyMuts fsW msW = fsW := by
    funext q
    by_cases hq : q = cfgPathW <;> simp [applyMuts, applyMut, msW, fsW, hq]
  exact ⟨h1, h2, refresh_after_net_restore fsW .unix msW wsW h1 h2⟩

theorem searchDirs_trace_subset (fs : Fs) (plat : Platform) (l : List CPath) :
    ∀ d ∈ (searchDirs fs plat l).2, d ∈ l := by
  induction l with
  | nil => intro d hd; simp [searchDirs] at hd
  | cons a rest ih =>
    intro d hd
    cases h : searchStep fs plat a with
    | some r =>
      simp [searchDirs, h] at hd
      simp [hd]
    | none =>
      simp only [searchDirs, h] at hd
      rw [List.mem_cons] at hd
      rcases hd with hd | hd
      · simp [hd]
      · exact List.mem_cons_of_mem a (ih d hd)

theorem ancestorsAux_prefixes (n : Nat) (d : CPath) :
    ∀ x ∈ ancestorsAux n d, ∃ t, x ++ t = d := by
  induction n generalizing d with
  | zero =>
    intro x hx
    rw [ancestorsAux, List.mem_singleton] at hx
    exact ⟨[], by simp [hx]⟩
  | succ n ih =>
    intro x hx
    rw [ancestorsAux, List.mem_cons] at hx
    rcases hx with hx | hx
    · exact ⟨[], by simp [hx]⟩
    · rcases ih d.dropLast x hx with ⟨t, ht⟩
      by_cases hd : d = []
      · subst hd
        simp at ht
        exact ⟨[], by simp [ht.1, ht.2]⟩
      · refine ⟨t ++ [d.getLast hd], ?_⟩
        rw [← List.append_assoc, ht, List.dropLast_append_getLast hd]

theorem ancestors_prefixes (d : CPath) :
    ∀ x ∈ ancestors d, ∃ t, x ++ t = d :=
  ancestorsAux_prefixes d.length d

theorem elided_dir_not_ancestor (acc : CPath) (b c : String) (r t : List String)
    (hbc : b ≠ c) : (acc ++ [b]) ++ t ≠ acc ++ c :: r := by
  intro ht
  rw [List.append_assoc] at ht
  have h2 := List.append_cancel_left ht
  rw [List.singleton_append, List.cons.injEq] at h2
  exact hbc h2.1

/-- C5: `..` components are resolved by the canonicalizer before the
ancestor walk starts (a `..` following a real directory cancels it, so a
search from `a/b/../c` behaves exactly like one from `a/c`); the walk
inspects only ancestors of its canonical start directory, and the
directory elided by `..` is not one of them. -/
theorem dotdot_resolved_before_walk (fs : Fs) (plat : Platform) (fuel : Nat)
    (acc : List String) (b c : String) (r rest : List String)
    (hb1 : b ≠ ".") (hb2 : b ≠ "..") (hdir : fs (acc ++ [b]) = .dir)
    (hbc : b ≠ c) :
    canonComp fs fuel acc (b :: ".." :: rest) = canonComp fs fuel acc rest
  ∧ (∀ s : CPath, ∀ d ∈ (searchDirs fs plat (ancestors s)).2, ∃ t, d ++ t = s)
  ∧ (∀ t, (acc ++ [b]) ++ t ≠ acc ++ c :: r)
  ∧ (acc ++ [b]) ∉ (searchDirs fs plat (ancestors (acc ++ c :: r))).2 := by
  refine ⟨canonComp_dotdot_after_dir fs fuel acc b rest hb1 hb2 hdir,
    fun s d hd => ancestors_prefixes s d (searchDirs_trace_subset fs plat _ d hd),
    fun t => elided_dir_not_ancestor acc b c r t hbc, ?_⟩
  intro hmem
  rcases ancestors_prefixes _ _ (searchDirs_trace_subset fs plat _ _ hmem) with ⟨t, ht⟩
  exact elided_dir_not_ancestor acc b c r t hbc ht

theorem dotdot_resolved_before_walk_witness :
    ("subdir" ≠ "." ∧ "subdir" ≠ ".." ∧ "subdir" ≠ "hello.js")
  ∧ fsW5 (["tmp", "dir"] ++ ["subdir"]) = .dir
  ∧ canonComp fsW5 9 ["tmp", "dir"] (["subdir", "..", "hello.js"])
      = canonComp fsW5 9 ["tmp", "dir"] ["hello.js"]
  ∧ (["tmp", "dir"] ++ ["subdir"])
      ∉ (searchDirs fsW5 .unix (ancestors (["tmp", "dir"] ++ "hello.js" :: []))).2 := by
  have h := dotdot_resolved_before_walk fsW5 .unix 9 ["tmp", "dir"]
    "subdir" "hello.js" [] ["hello.js"]
    (by decide) (by decide) (by simp [fsW5]) (by decide)
  exact ⟨⟨by decide, by decide, by decide⟩, by simp [fsW5], h.1, h.2.2.2⟩

theorem searchDirs_append_none (fs : Fs) (plat : Platform) (l₁ l₂ : List CPath)
    (h : ∀ d ∈ l₁, searchStep fs plat d = none) :
    searchDirs fs plat (l₁ ++ l₂)
      = ((searchDirs fs plat l₂).1, l₁ ++ (searchDirs fs plat l₂).2) := by
  induction l₁ with
  | nil => simp [searchDirs]
  | cons a as ih =>
    have ha : searchStep fs plat a = none := h a (by simp)
    rw [List.cons_append]
    show (match searchStep fs plat a with
      | some r => (r, [a])
      | none =>
        let p := searchDirs fs plat (as ++ l₂)
        (p.1, a :: p.2)) = _
    rw [ha, ih (fun d hd => h d (List.mem_cons_of_mem a hd))]
    rfl

theorem searchDirs_found (fs : Fs) (plat : Platform) (d : CPath)
    (l₂ : List CPath) (c : Content)
    (hfile : statKind fs statFuel (d ++ [configFileName]) = .file true c) :
    searchDirs fs plat (d :: l₂) = (.ok (d ++ [configFileName]) c, [d]) := by
  show (match searchStep fs plat d with
    | some r => (r, [d])
    | none =>
      let p := searchDirs fs plat l₂
      (p.1, d :: p.2)) = _
  rw [searchStep]
  simp only [hfile]

/-- C6: a stdin input with no explicit config file and no search path
loads successfully with no config, walking (and arming) no directory at
all, whatever the filesystem contains; when a search path is supplied for
stdin, the ancestor search runs from that path's parent and returns the
nearest config. -/
theorem stdin_semantics (fs : Fs) (plat : Platform) (f : FileToLint)
    (sp P : CPath) (c : Content)
    (hstdin : f.isStdin = true) (hcf : f.configFile = none) :
    (f.pathForConfigSearch = none → resolveFileT fs plat f = (.noConfig, []))
  ∧ (f.pathForConfigSearch = some sp →
      resolveFileT fs plat f = searchDirs fs plat (ancestors sp.dropLast))
  ∧ (∀ l₁ l₂, f.pathForConfigSearch = some sp →
      ancestors sp.dropLast = l₁ ++ (P :: l₂) →
      (∀ d ∈ l₁, searchStep fs plat d = none) →
      statKind fs statFuel (P ++ [configFileName]) = .file true c →
      resolveFile fs plat f = .ok (P ++ [configFileName]) c) := by
  refine ⟨?_, ?_, ?_⟩
  · intro hn
    simp [resolveFileT, hcf, hstdin, hn]
  · intro hsp
    simp [resolveFileT, hcf, hstdin, hsp]
  · intro l₁ l₂ hsp hsplit hnone hfile
    rw [resolveFile, resolveFileT, hcf]
    simp only [hstdin, hsp, true_and]
    rw [if_neg (by simp), Option.getD_some, hsplit,
      searchDirs_append_none fs plat l₁ (P :: l₂) hnone,
      searchDirs_found fs plat P l₂ c hfile]

theorem stdin_semantics_witness :
    ((true : Bool) = true ∧ (none : Option CPath) = none)
  ∧ resolveFileT fsW6 .unix ⟨["<stdin>"], none, none, true⟩ = (.noConfig, [])
  ∧ resolveFile fsW6 .unix ⟨["<stdin>"], none, some ["proj", "test.js"], true⟩
      = .ok (["proj"] ++ [configFileName]) [2] := by
  have h1 := stdin_semantics fsW6 .unix ⟨["<stdin>"], none, none, true⟩
    ["proj", "test.js"] ["proj"] [2] rfl rfl
  have h2 := stdin_semantics fsW6 .unix
    ⟨["<stdin>"], none, some ["proj", "test.js"], true⟩
    ["proj", "test.js"] ["proj"] [2] rfl rfl
  refine ⟨⟨rfl, rfl⟩, h1.1 rfl, h2.2.2 [] [[]] rfl ?_ ?_ ?_⟩
  · decide
  · intro d hd
    simp at hd
  · simp [statKind, statFuel, fsW6, configFileName]

/-- C7: when the nearest existing config candidate is not a regular file
(for example a directory), loading fails with an `IOError` whose path is
that candidate's canonical path and whose code is EISDIR on Unix and
ERROR_ACCESS_DENIED on Windows. -/
theorem nonregular_config_candidate_fails (fs : Fs) (plat : Platform)
    (f : FileToLint) (sp P : CPath) (l₁ l₂ : List CPath)
    (hcf : f.configFile = none) (hstdin : f.isStdin = false)
    (hsp : f.pathForConfigSearch.getD f.path = sp)
    (hsplit : ancestors sp.dropLast = l₁ ++ (P :: l₂))
    (hbefore : ∀ d ∈ l₁, searchStep fs plat d = none)
    (hdir : statKind fs statFuel (P ++ [configFileName]) = .dir) :
    resolveFile fs plat f = .err ⟨P ++ [configFileName], nonRegularCode plat⟩
  ∧ nonRegularCode .unix = EISDIR
  ∧ nonRegularCode .windows = ERROR_ACCESS_DENIED := by
  refine ⟨?_, rfl, rfl⟩
  rw [resolveFile, resolveFileT, hcf]
  rw [if_neg (by simp [hstdin]), hsp, hsplit,
    searchDirs_append_none fs plat l₁ (P :: l₂) hbefore]
  show (searchDirs fs plat (P :: l₂)).1 = _
  rw [show searchDirs fs plat (P :: l₂)
      = (.err ⟨P ++ [configFileName], nonRegularCode plat⟩, [P]) from ?_]
  · show (match searchStep fs plat P with
      | some r => (r, [P])
      | none =>
        let p := searchDirs fs plat l₂
        (p.1, P :: p.2)) = _
    rw [searchStep]
    simp only [hdir]

theorem nonregular_config_candidate_fails_witness :
    ancestors (["proj", "hello.js"] : CPath).dropLast
      = [] ++ ((["proj"] : CPath) :: [[]])
  ∧ statKind fsW7 statFuel (["proj"] ++ [configFileName]) = .dir
  ∧ resolveFile fsW7 .unix ⟨["proj", "hello.js"], none, none, false⟩
      = .err ⟨["proj"] ++ [configFileName], nonRegularCode .unix⟩
  ∧ nonRegularCode .unix = EISDIR := by
  have h := nonregular_config_candidate_fails fsW7 .unix
    ⟨["proj", "hello.js"], none, none, false⟩
    ["proj", "hello.js"] ["proj"] [] [[]]
    rfl rfl rfl (by decide) (by intro d hd; simp at hd)
    (by simp [statKind, statFuel, fsW7, configFileName])
  exact ⟨by decide, by simp [statKind, statFuel, fsW7, configFileName],
    h.1, h.2.1⟩

theorem find?_append_none {α : Type} (q : α → Bool) (l₁ l₂ : List α)
    (h : l₁.find? q = none) : (l₁ ++ l₂).find? q = l₂.find? q := by
  induction l₁ with
  | nil => simp
  | cons a as ih =>
    by_cases hqa : q a = true
    · rw [List.find?_cons_of_pos _ hqa] at h
      exact absurd h (by simp)
    · rw [List.find?_cons_of_neg _ hqa] at h
      rw [List.cons_append, List.find?_cons_of_neg _ hqa]
      exact ih h

theorem getOrLoad_fst_path (s : LoaderState) (p : CPath) (c : Content) :
    (getOrLoad s p c).1.path = p := by
  unfold getOrLoad
  cases h : findEntry s.cache p with
  | some e =>
    have h' := h
    unfold findEntry at h'
    have hps := List.find?_some h'
    simp only [h]
    exact of_decide_eq_true hps
  | none => simp [h]

theorem findEntry_after_getOrLoad (s : LoaderState) (p : CPath) (c : Content) :
    findEntry (getOrLoad s p c).2.cache p = some (getOrLoad s p c).1 := by
  unfold getOrLoad
  cases h : findEntry s.cache p with
  | some e => simp only [h]
  | none =>
    simp only [h]
    show findEntry (s.cache ++ [CacheEntry.mk s.nextId p c]) p = _
    unfold findEntry at h ⊢
    rw [find?_append_none _ s.cache _ h, List.find?_cons_of_pos _ (by simp)]

theorem getOrLoad_cache_nodup (s : LoaderState) (p : CPath) (c : Content)
    (h : (s.cache.map CacheEntry.path).Nodup) :
    ((getOrLoad s p c).2.cache.map CacheEntry.path).Nodup := by
  unfold getOrLoad
  cases hf : findEntry s.cache p with
  | some e => simpa [hf]
  | none =>
    simp only [hf]
    show ((s.cache ++ [CacheEntry.mk s.nextId p c]).map CacheEntry.path).Nodup
    rw [List.map_append]
    refine List.Nodup.append h (by simp) ?_
    intro x hx hx2
    rcases List.mem_map.mp hx with ⟨e, he, hep⟩
    unfold findEntry at hf
    have hne := List.find?_eq_none.mp hf e he
    simp at hx2 hne
    exact hne (hep.trans hx2)

theorem loadFromResolution_hit (s : LoaderState) (P : CPath) (c : Content)
    (e : CacheEntry) (h : findEntry s.cache P = some e) :
    loadFromResolution s (.ok P c) = (.ok (some e), s) := by
  have hred : loadFromResolution s (.ok P c)
      = (.ok (some (getOrLoad s P c).1), (getOrLoad s P c).2) := rfl
  rw [hred]
  unfold getOrLoad
  rw [h]

theorem getOrLoad_watchErrors (s : LoaderState) (p : CPath) (c : Content) :
    (getOrLoad s p c).2.watchErrors = s.watchErrors := by
  unfold getOrLoad
  cases hf : findEntry s.cache p with
  | some e => simp [hf]
  | none => simp [hf]

/-- C2: the cache holds at most one live entry per canonical config path
(the list of cached paths stays duplicate-free), and two
`watch_and_load` calls (of either mode) whose resolutions are the same
canonical path `P` return the identical entry. -/
theorem same_config_path_same_entry (fs : Fs) (plat : Platform)
    (wb : WatcherBehavior) (s : LoaderState) (f1 f2 : FileToLint)
    (t1 t2 : Nat) (P : CPath) (c1 c2 : Content)
    (hnodup : (s.cache.map CacheEntry.path).Nodup)
    (h1 : resolveFile fs plat f1 = .ok P c1)
    (h2 : resolveFile fs plat f2 = .ok P c2) :
    (watchAndLoad fs plat wb (watchAndLoad fs plat wb s f1 t1).2.1 f2 t2).1
      = (watchAndLoad fs plat wb s f1 t1).1
  ∧ (∃ e, (watchAndLoad fs plat wb s f1 t1).1 = .ok (some e) ∧ e.path = P)
  ∧ ((watchAndLoad fs plat wb
        (watchAndLoad fs plat wb s f1 t1).2.1 f2 t2).2.1.cache.map
        CacheEntry.path).Nodup := by
  have hr1 : (resolveFileT fs plat f1).1 = .ok P c1 := h1
  have hr2 : (resolveFileT fs plat f2).1 = .ok P c2 := h2
  have hload1 :
      (watchAndLoad fs plat wb s f1 t1).1 = .ok (some (getOrLoad s P c1).1)
    ∧ (watchAndLoad fs plat wb s f1 t1).2.1.cache = (getOrLoad s P c1).2.cache
    ∧ (watchAndLoad fs plat wb s f1 t1).2.1.nextId
        = (getOrLoad s P c1).2.nextId := by
    simp only [watchAndLoad]
    rw [hr1]
    exact ⟨rfl, rfl, rfl⟩
  have hstep2 : findEntry (watchAndLoad fs plat wb s f1 t1).2.1.cache P
      = some (getOrLoad s P c1).1 := by
    rw [hload1.2.1]
    exact findEntry_after_getOrLoad s P c1
  refine ⟨?_, ⟨(getOrLoad s P c1).1, hload1.1, getOrLoad_fst_path s P c1⟩, ?_⟩
  · show (watchAndLoad fs plat wb ((watchAndLoad fs plat wb s f1 t1).2.1) f2 t2).1
      = _
    generalize hgen : (watchAndLoad fs plat wb s f1 t1).2.1 = s1 at hstep2 ⊢
    show (loadFromResolution s1 (resolveFileT fs plat f2).1).1 = _
    rw [hr2, loadFromResolution_hit s1 P c2 _ hstep2]
    exact hload1.1.symm
  · generalize hgen : (watchAndLoad fs plat wb s f1 t1).2.1 = s1 at hstep2
    have hcache1 : s1.cache = (getOrLoad s P c1).2.cache := by
      rw [← hgen]
      exact hload1.2.1
    show ((loadFromResolution s1 (resolveFileT fs plat f2).1).2.cache.map
      CacheEntry.path).Nodup
    rw [hr2, loadFromResolution_hit s1 P c2 _ hstep2]
    show ((s1.cache).map CacheEntry.path).Nodup
    rw [hcache1]
    exact getOrLoad_cache_nodup s P c1 hnodup

/-- Witness inputs for the cache-identity claim: two distinct files in
`proj`, both resolving to the config of `fsW`. -/
def fileW2 : FileToLint := ⟨["proj", "two.js"], none, none, false⟩

/-- Witness loader state: a fresh loader with an empty cache. -/
def emptyLoaderW : LoaderState := ⟨[], 0, []⟩

theorem same_config_path_same_entry_witness :
    ((emptyLoaderW.cache.map CacheEntry.path).Nodup
      ∧ resolveFile fsW .unix fileW = .ok cfgPathW [123]
      ∧ resolveFile fsW .unix fileW2 = .ok cfgPathW [123])
  ∧ (watchAndLoad fsW .unix perfectWatcher
        (watchAndLoad fsW .unix perfectWatcher emptyLoaderW fileW 1).2.1
        fileW2 2).1
      = (watchAndLoad fsW .unix perfectWatcher emptyLoaderW fileW 1).1 := by
  have hnodup : (emptyLoaderW.cache.map CacheEntry.path).Nodup := by
    simp [emptyLoaderW]
  have h1 : resolveFile fsW .unix fileW = .ok cfgPathW [123] := by
    simp [resolveFile, resolveFileT, fileW, ancestors, ancestorsAux,
      searchDirs, searchStep, statKind, statFuel, fsW, cfgPathW,
      configFileName]
  have h2 : resolveFile fsW .unix fileW2 = .ok cfgPathW [123] := by
    simp [resolveFile, resolveFileT, fileW2, ancestors, ancestorsAux,
      searchDirs, searchStep, statKind, statFuel, fsW, cfgPathW,
      configFileName]
  exact ⟨⟨hnodup, h1, h2⟩,
    (same_config_path_same_entry fsW .unix perfectWatcher emptyLoaderW
      fileW fileW2 1 2 cfgPathW [123] [123] hnodup h1 h2).1⟩

theorem loadFromResolution_watchErrors (s : LoaderState) (r : Resolution) :
    (loadFromResolution s r).2.watchErrors = s.watchErrors := by
  cases r with
  | ok p c => exact getOrLoad_watchErrors s p c
  | noConfig => rfl
  | err e => rfl

/-- C8: watcher-level I/O failures never make `watch_and_load` fail —
its load result is the one a perfect watcher would give; the failures
surface only through `take_watch_errors`, instance-initialization
failures with an empty path and per-directory failures with the
offending canonical directory path. -/
theorem watch_failures_out_of_band (fs : Fs) (plat : Platform)
    (wb : WatcherBehavior) (s : LoaderState) (f : FileToLint) (tok : Nat) :
    (watchAndLoad fs plat wb s f tok).1
      = (watchAndLoad fs plat perfectWatcher s f tok).1
  ∧ (takeWatchErrors (watchAndLoad fs plat wb s f tok).2.1).1
      = s.watchErrors ++ armDirs wb (resolveFileT fs plat f).2
  ∧ (takeWatchErrors (loaderInit wb)).1 = initErrors wb
  ∧ (∀ e ∈ initErrors wb, e.path = [] ∧ wb.initError = some e.code)
  ∧ (∀ ds : List CPath, ∀ e ∈ armDirs wb ds,
      e.path ∈ ds ∧ wb.addWatchError e.path = some e.code) := by
  refine ⟨rfl, ?_, rfl, ?_, ?_⟩
  · show (watchAndLoad fs plat wb s f tok).2.1.watchErrors = _
    unfold watchAndLoad
    show (loadFromResolution s (resolveFileT fs plat f).1).2.watchErrors ++ _ = _
    rw [loadFromResolution_watchErrors]
  · intro e he
    unfold initErrors at he
    cases hi : wb.initError with
    | some cc =>
      rw [hi, List.mem_singleton] at he
      subst he
      exact ⟨rfl, rfl⟩
    | none => rw [hi] at he; exact absurd he (by simp)
  · intro ds e he
    unfold armDirs at he
    rcases List.mem_filterMap.mp he with ⟨d, hd, hmap⟩
    cases hw : wb.addWatchError d with
    | some cc =>
      rw [hw] at hmap
      simp at hmap
      subst hmap
      exact ⟨hd, hw⟩
    | none => rw [hw] at hmap; exact absurd hmap (by simp)

/-- C9: a `Result` constructed from a value is `ok()` and `value()`
returns that value; a `Result` constructed or assigned from
`failed_result(e)` is not `ok()` and `error()` returns `e`; the
assertions guarding `value()` and `error()` hold on every access
respecting those preconditions (`T` and `Error` distinct, as the source
requires). -/
theorem result_accessors (T E : Type) (hTE : T ≠ E) (v : T) (e : E)
    (r : Result T E) :
    (Result.ofValue T E v).ok = true
  ∧ (∀ h, Result.value (Result.ofValue T E v) h = v)
  ∧ (Result.ofError T E (failed_result E e)).ok = false
  ∧ (∀ h, Result.error (Result.ofError T E (failed_result E e)) h = e)
  ∧ (Result.assignError T E r (failed_result E e)).ok = false
  ∧ (∀ h, Result.error (Result.assignError T E r (failed_result E e)) h = e) :=
  ⟨rfl, fun _ => rfl, rfl, fun _ => rfl, rfl, fun _ => rfl⟩

theorem result_accessors_witness :
    ((Nat : Type) ≠ Bool)
  ∧ (Result.ofValue Nat Bool 7).ok = true
  ∧ Result.value (Result.ofValue Nat Bool 7) rfl = 7
  ∧ (Result.ofError Nat Bool (failed_result Bool true)).ok = false
  ∧ Result.error (Result.ofError Nat Bool (failed_result Bool true)) rfl
      = true := by
  have hTE : (Nat : Type) ≠ Bool := by
    intro h
    have hinf : Infinite Bool := h ▸ (inferInstance : Infinite Nat)
    exact absurd (Finite.of_fintype Bool) hinf.not_finite
  have h := result_accessors Nat Bool hTE 7 true (Result.ofValue Nat Bool 0)
  exact ⟨hTE, h.1, h.2.1 rfl, h.2.2.1, h.2.2.2.1 rfl⟩

set_option maxRecDepth 10000 in
/-- C10: for the fixed symbol list, `compute_transition_table` is
consistent — every internal `QLJS_ASSERT` comparing an already-written
transition cell against the value about to be written holds (and every
row access is in bounds) — and `classify_characters` assigns distinct
character classes to distinct bytes occurring in symbols. -/
theorem lex_transition_table_assertion_holds :
    transitionTableConsistent = true ∧ symbolByteClassesDistinct = true := by
  constructor <;> decide

end quick_lint_js
